import Mathlib

/-!
Shallow embedding of the listing-export parser of
`RealEstate_Sales_Parser2.py` (function `parse_data` and its inner helper
`parse_agent_line`), together with proofs about the claims C1..C10.

Strings are modelled as `List Char`.  Python regular expressions are
translated pattern by pattern into explicit matching functions with the
backtracking order of the Python `re` engine made explicit (greedy
quantifiers try the longest split first, lazy ones the shortest).  The
Python character classes `\s`, `\d`, `\w` are modelled on their ASCII
range (`[ \t\n\r\x0b\x0c]`, `[0-9]`, `[A-Za-z0-9_]`), which covers every
character occurring in the source format.
-/

namespace RSP

/-- ASCII range of Python's `\s` character class; also the set removed by
`str.strip()`. -/
def pyWs (c : Char) : Bool :=
  c == ' ' || c == '\t' || c == '\n' || c == '\r' || c == '\x0b' || c == '\x0c'

/-- ASCII range of Python's `\d`. -/
def pyDigit (c : Char) : Bool := c.isDigit

/-- The class `[:\t]` used as field delimiter. -/
def colTab (c : Char) : Bool := c == ':' || c == '\t'

/-- The class `[^\t\n]`. -/
def notTabNl (c : Char) : Bool := !(c == '\t' || c == '\n')

/-- The class `[\d/]`. -/
def digitSlash (c : Char) : Bool := c.isDigit || c == '/'

/-- The class `[\d,]`. -/
def digitComma (c : Char) : Bool := c.isDigit || c == ','

/-- The class `[\d\.]`. -/
def digitDot (c : Char) : Bool := c.isDigit || c == '.'

/-- The class `[\w\s;,\-]` of the `Appliances` pattern. -/
def applianceChar (c : Char) : Bool :=
  c.isAlphanum || c == '_' || pyWs c || c == ';' || c == ',' || c == '-'

/-- The class `[^):]` inside the contact pattern. -/
def notColParen (c : Char) : Bool := !(c == ')' || c == ':')

/-- The class `[^()]` of the contact-value group. -/
def notParen (c : Char) : Bool := !(c == '(' || c == ')')

/-- Python `str.strip()`: remove leading and trailing `\s` characters. -/
def strip (s : List Char) : List Char :=
  ((s.dropWhile pyWs).reverse.dropWhile pyWs).reverse

/-- Lookup in an association list built by repeated assignment, as in a
Python dict comprehension: a later binding of the same key overwrites an
earlier one; a missing key yields the empty string (`dict.get(k, '')`). -/
def dictGet (l : List (List Char × List Char)) (k : List Char) : List Char :=
  (l.foldl (fun acc p => if p.1 = k then some p.2 else acc)
    (none : Option (List Char))).getD []

/-!
### Record Splitter

`parse_data` splits the document with `re.split(r'(MLS#\s*\d+)', data)`.
A marker match is the literal `MLS#`, a greedy run of whitespace, and a
greedy nonempty run of digits (no backtracking can help because `\s` and
`\d` are disjoint).
-/

/-- Attempt to match the marker regex `MLS#\s*\d+` at the head of `s`;
on success return the matched text and the remaining suffix. -/
def matchMarkerAt : List Char → Option (List Char × List Char)
  | 'M' :: 'L' :: 'S' :: '#' :: r =>
    let ws := r.takeWhile pyWs
    let r1 := r.dropWhile pyWs
    let ds := r1.takeWhile pyDigit
    if ds.isEmpty then none
    else some ('M' :: 'L' :: 'S' :: '#' :: (ws ++ ds), r1.dropWhile pyDigit)
  | _ => none

/-- Leftmost marker match: text before the match, the match, the rest.
Models the scanning of Python's `re` engine (and `re.search` for the
marker pattern, which is how line 226 of the source tests `records[0]`). -/
def findMarker : List Char → Option (List Char × List Char × List Char)
  | [] => none
  | c :: cs =>
    match matchMarkerAt (c :: cs) with
    | some (m, r) => some ([], m, r)
    | none => (findMarker cs).map (fun t => (c :: t.1, t.2.1, t.2.2))

/-- Fuel-indexed `re.split(r'(MLS#\s*\d+)', s)`: split at each successive
leftmost non-overlapping match, keeping the captured marker in the output
list.  With fuel larger than the number of markers the fuel never runs
out; `reSplitMLS` supplies `s.length + 1`. -/
def reSplitF : Nat → List Char → List (List Char)
  | 0, s => [s]
  | fuel + 1, s =>
    match findMarker s with
    | none => [s]
    | some (b, m, r) => b :: m :: reSplitF fuel r

/-- `re.split(r'(MLS#\s*\d+)', s)` (line 224 of the source). -/
def reSplitMLS (s : List Char) : List (List Char) :=
  reSplitF (s.length + 1) s

/-- Line 226-227 of the source: drop the first split element when it does
not contain a marker (`re.search(r'MLS#\s*\d+', records[0])`). -/
def dropNonMarkerHead : List (List Char) → List (List Char)
  | [] => []
  | r0 :: rest => if (findMarker r0).isSome then r0 :: rest else rest

/-- Lines 229-234 of the source: pair each marker with the following
content, strip both, and keep the pair only when both are nonempty; a
kept pair becomes the block `mls + "\n" + content`. -/
def pairRecords : List (List Char) → List (List Char)
  | [] => []
  | [m] =>
    let mls := strip m
    let content : List Char := []
    if !mls.isEmpty && !content.isEmpty then [mls ++ '\n' :: content] else []
  | m :: c :: rest =>
    let mls := strip m
    let content := strip c
    (if !mls.isEmpty && !content.isEmpty then [mls ++ '\n' :: content] else [])
      ++ pairRecords rest

/-- The Record Splitter: the ordered list of listing blocks produced from
the raw document (lines 224-234 of the source). -/
def splitRecords (s : List Char) : List (List Char) :=
  pairRecords (dropNonMarkerHead (reSplitMLS s))

/-- The text before the first marker match (all of `s` when there is
none). -/
def contentBefore (s : List Char) : List Char :=
  match findMarker s with
  | none => s
  | some (b, _, _) => b

/-- Fuel-indexed form of `mlsSegs`: each leftmost non-overlapping marker
match paired with the text between it and the next match (or the end of
the document).  This is the specification-side description of the split
used to count markers and their contents. -/
def mlsSegsF : Nat → List Char → List (List Char × List Char)
  | 0, _ => []
  | fuel + 1, s =>
    match findMarker s with
    | none => []
    | some (_, m, r) => (m, contentBefore r) :: mlsSegsF fuel r

/-- Marker/content segments of a document. -/
def mlsSegs (s : List Char) : List (List Char × List Char) :=
  mlsSegsF (s.length + 1) s

/-- The number of marker matches of `MLS#\s*\d+` in the document. -/
def mlsMarkerCount (s : List Char) : Nat := (mlsSegs s).length

/-- Flatten a list of pairs into the alternating list of components. -/
def flatPairs : List (List Char × List Char) → List (List Char)
  | [] => []
  | p :: l => p.1 :: p.2 :: flatPairs l

/-!
### Field Extractor combinators

Each field pattern of `field_patterns` (lines 135-195 of the source) is
translated into a function `List Char → Option (List Char)` that attempts
to match the pattern at the head of its argument and returns capture
group 1.  Greedy quantifiers followed by further pattern parts are
modelled by trying every split of the maximal run, longest first, exactly
in the backtracking order of the Python engine.
-/

/-- All ways to split off a prefix of the maximal `P`-run, longest first:
the backtracking choice points of a greedy `P*` (or `P+`, once the empty
split is rejected). -/
def runSplits (P : Char → Bool) (s : List Char) : List (List Char × List Char) :=
  ((List.range ((s.takeWhile P).length + 1)).reverse).map
    (fun k => (s.take k, s.drop k))

/-- Literal text followed by a continuation. -/
def litThen (lit : List Char) (k : List Char → Option (List Char))
    (s : List Char) : Option (List Char) :=
  if lit.isPrefixOf s then k (s.drop lit.length) else none

/-- `\s*` (greedy, with backtracking) followed by a continuation. -/
def afterWsOpt (k : List Char → Option (List Char)) (s : List Char) :
    Option (List Char) :=
  (runSplits pyWs s).findSome? (fun p => k p.2)

/-- `[:\t]+` (greedy, with backtracking) followed by a continuation. -/
def afterDelim (k : List Char → Option (List Char)) (s : List Char) :
    Option (List Char) :=
  (runSplits colTab s).findSome? (fun p => if p.1.isEmpty then none else k p.2)

/-- `\$?` (greedy: with the dollar first when present) followed by a
continuation. -/
def afterDollarOpt (k : List Char → Option (List Char)) (s : List Char) :
    Option (List Char) :=
  match s with
  | '$' :: r => (k r).orElse (fun _ => k s)
  | _ => k s

/-- Capture group `(C+)`: the maximal nonempty run of class `C`. -/
def capP (C : Char → Bool) (s : List Char) : Option (List Char) :=
  let c := s.takeWhile C
  if c.isEmpty then none else some c

/-- Capture group `(C*)`: the maximal (possibly empty) run of class `C`. -/
def capPStar (C : Char → Bool) (s : List Char) : Option (List Char) :=
  some (s.takeWhile C)

/-- Capture group `(Yes|No)`: alternation, left branch first. -/
def capYesNo (s : List Char) : Option (List Char) :=
  if ("Yes".toList).isPrefixOf s then some ("Yes".toList)
  else if ("No".toList).isPrefixOf s then some ("No".toList)
  else none

/-- Lazy capture `([\s\S]*?)` bounded by a stop condition on the
remaining suffix: shortest capture first. -/
def lazyCapUntil (stop : List Char → Bool) : List Char → Option (List Char)
  | [] => if stop [] then some [] else none
  | c :: cs =>
    if stop (c :: cs) then some []
    else (lazyCapUntil stop cs).map (fun t => c :: t)

/-- Stop condition of the `Public Remarks` pattern: the remaining text
matches `\s*\nPrivate Remarks:` (the `\s*` may take any admissible
length; which one is taken does not affect group 1). -/
def stopPub (s : List Char) : Bool :=
  (runSplits pyWs s).any (fun p => ("\nPrivate Remarks:".toList).isPrefixOf p.2)

/-- Stop condition of the `Private Remarks` pattern: the lookahead
`(?=\nAppliances:|$)` holds (`$` without `re.MULTILINE` matches at the
end of the string or before a final newline). -/
def stopPriv (s : List Char) : Bool :=
  ("\nAppliances:".toList).isPrefixOf s || s.isEmpty || s == ['\n']

/-- The common shape `LABEL[:\t]+\s*(CAP)`. -/
def stdMatch (label : String) (cap : List Char → Option (List Char))
    (s : List Char) : Option (List Char) :=
  litThen label.toList (afterDelim (afterWsOpt cap)) s

/-- The shape `LABEL[:\t]+\$?(C+)` (note: no `\s*`). -/
def dollarMatch (label : String) (C : Char → Bool) (s : List Char) :
    Option (List Char) :=
  litThen label.toList (afterDelim (afterDollarOpt (capP C))) s

/-- `MLS#\s*(\d+)`. -/
def mlsFieldMatch (s : List Char) : Option (List Char) :=
  litThen ("MLS#".toList) (afterWsOpt (capP pyDigit)) s

/-- `Close Price\s*:\s*\$?([\d,]+)`. -/
def closePriceMatch (s : List Char) : Option (List Char) :=
  litThen ("Close Price".toList)
    (afterWsOpt (fun r =>
      match r with
      | ':' :: r2 => afterWsOpt (afterDollarOpt (capP digitComma)) r2
      | _ => none)) s

/-- `DOM/CDOM[:\t]+\s*[\d/]+\s*([^\t\n]+)` (the `Address` rule). -/
def addressMatch (s : List Char) : Option (List Char) :=
  litThen ("DOM/CDOM".toList)
    (afterDelim (afterWsOpt (fun r =>
      (runSplits digitSlash r).findSome? (fun p =>
        if p.1.isEmpty then none else afterWsOpt (capP notTabNl) p.2)))) s

/-- `re.search`: the match attempt at the leftmost position that
succeeds, scanning left to right. -/
def searchCap (m : List Char → Option (List Char)) : List Char → Option (List Char)
  | [] => m []
  | c :: cs => (m (c :: cs)).orElse (fun _ => searchCap m cs)

/-- The `field_patterns` catalogue (lines 135-195 of the source), in
declaration order: field name and translated pattern. -/
def fieldPatterns : List (List Char × (List Char → Option (List Char))) :=
  [ ("MLS#".toList, mlsFieldMatch),
    ("DOM/CDOM".toList, stdMatch "DOM/CDOM" (capP digitSlash)),
    ("Address".toList, addressMatch),
    ("County".toList, stdMatch "County" (capP notTabNl)),
    ("List Price".toList, dollarMatch "List Price" digitComma),
    ("Close Price".toList, closePriceMatch),
    ("Year Built".toList, stdMatch "Year Built" (capP pyDigit)),
    ("Living Area".toList, stdMatch "Living Area" (capP digitComma)),
    ("Bedrooms Total".toList, stdMatch "Bedrooms Total" (capP pyDigit)),
    ("Bathrooms Total".toList, stdMatch "Bathrooms Total" (capP pyDigit)),
    ("Garage Spaces".toList, stdMatch "Garage Spaces" (capP pyDigit)),
    ("Parcel Number".toList, stdMatch "Parcel Number" (capP pyDigit)),
    ("Subdivision Name".toList, stdMatch "Subdivision Name" (capP notTabNl)),
    ("CDD Fee".toList, stdMatch "CDD Fee" capYesNo),
    ("New Construction".toList, stdMatch "New Construction" capYesNo),
    ("Waterfront".toList, stdMatch "Waterfront" capYesNo),
    ("Directions".toList, stdMatch "Directions" (capP notTabNl)),
    ("Public Remarks".toList, stdMatch "Public Remarks" (lazyCapUntil stopPub)),
    ("Private Remarks".toList, stdMatch "Private Remarks" (lazyCapUntil stopPriv)),
    ("Appliances".toList, stdMatch "Appliances" (capP applianceChar)),
    ("Approx Parcel Size".toList, stdMatch "Approx Parcel Size" (capP notTabNl)),
    ("Architectural Style".toList, stdMatch "Architectural Style" (capP notTabNl)),
    ("Construction Materials".toList, stdMatch "Construction Materials" (capP notTabNl)),
    ("Cooling".toList, stdMatch "Cooling" (capP notTabNl)),
    ("Current Use".toList, stdMatch "Current Use" (capP notTabNl)),
    ("DPR Eligible".toList, stdMatch "DPR Eligible" (capPStar notTabNl)),
    ("Fencing".toList, stdMatch "Fencing" (capP notTabNl)),
    ("Fireplace Features".toList, stdMatch "Fireplace Features" (capP notTabNl)),
    ("Heating".toList, stdMatch "Heating" (capP notTabNl)),
    ("Interior Features".toList, stdMatch "Interior Features" (capP notTabNl)),
    ("Laundry Features".toList, stdMatch "Laundry Features" (capP notTabNl)),
    ("Listing Terms".toList, stdMatch "Listing Terms" (capP notTabNl)),
    ("Lot Features".toList, stdMatch "Lot Features" (capP notTabNl)),
    ("Parking Features".toList, stdMatch "Parking Features" (capP notTabNl)),
    ("Patio And Porch Features".toList, stdMatch "Patio And Porch Features" (capP notTabNl)),
    ("Pool Features".toList, stdMatch "Pool Features" (capP notTabNl)),
    ("Possession".toList, stdMatch "Possession" (capP notTabNl)),
    ("Road Surface Type".toList, stdMatch "Road Surface Type" (capP notTabNl)),
    ("Roof".toList, stdMatch "Roof" (capP notTabNl)),
    ("Security Features".toList, stdMatch "Security Features" (capP notTabNl)),
    ("Sewer".toList, stdMatch "Sewer" (capP notTabNl)),
    ("Special Listing Conditions".toList, stdMatch "Special Listing Conditions" (capP notTabNl)),
    ("Utilities".toList, stdMatch "Utilities" (capP notTabNl)),
    ("Water Source".toList, stdMatch "Water Source" (capP notTabNl)),
    ("Showing Requirements".toList, stdMatch "Showing Requirements" (capP notTabNl)),
    ("Showing Considerations".toList, stdMatch "Showing Considerations" (capP notTabNl)),
    ("Listing Contract Date".toList, stdMatch "Listing Contract Date" (capP digitSlash)),
    ("Purchase Contract Date".toList, stdMatch "Purchase Contract Date" (capP digitSlash)),
    ("Close Date".toList, stdMatch "Close Date" (capP digitSlash)),
    ("Listing Service".toList, stdMatch "Listing Service" (capP notTabNl)),
    ("Original List Price".toList, dollarMatch "Original List Price" digitComma),
    ("List Price/SqFt".toList, dollarMatch "List Price/SqFt" digitDot),
    ("Sold Price/SqFt".toList, dollarMatch "Sold Price/SqFt" digitDot),
    ("Listing Agreement".toList, stdMatch "Listing Agreement" (capP notTabNl)),
    ("Contingency Reason".toList, stdMatch "Contingency Reason" (capP notTabNl)),
    ("Buyer Financing".toList, stdMatch "Buyer Financing" (capP notTabNl)),
    ("Concessions".toList, stdMatch "Concessions" capYesNo),
    ("BuyersCountryReside".toList, stdMatch "BuyersCountryReside" (capP notTabNl)),
    ("SellersCountryReside".toList, stdMatch "SellersCountryReside" (capP notTabNl)) ]

/-- Lines 242-248 of the source: for every rule, `re.search` the block;
store the stripped capture group on success, the empty string otherwise. -/
def extractFields (block : List Char) : List (List Char × List Char) :=
  fieldPatterns.map (fun p => (p.1, ((searchCap p.2 block).map strip).getD []))

/-!
### Contact/Agent Extractor (`parse_agent_line`, lines 198-221)
-/

/-- `re.findall(r'^DESIG:\s*(.*)$', record, re.MULTILINE)`: at every
line start (start of string or just after a newline), match the literal
`DESIG:`, a greedy `\s*` (which, containing `\n`, may cross line breaks),
then capture `.*` up to the end of that line.  No backtracking can arise:
after the maximal `\s*` the next character is not whitespace, `.*` runs
to the next newline or the end, and `$` then always holds.  Scanning
resumes after the end of the match. -/
def agentScanF : Nat → List Char → Bool → List Char → List (List Char)
  | 0, _, _, _ => []
  | fuel + 1, dlit, atStart, s =>
    if atStart && dlit.isPrefixOf s then
      let r := (s.drop dlit.length).dropWhile pyWs
      let cap := r.takeWhile (fun c => !(c == '\n'))
      cap :: agentScanF fuel dlit false (r.dropWhile (fun c => !(c == '\n')))
    else
      match s with
      | [] => []
      | c :: cs => agentScanF fuel dlit (c == '\n') cs

/-- `' '.join(matches)`. -/
def joinSpace : List (List Char) → List Char
  | [] => []
  | [x] => x
  | x :: xs => x ++ ' ' :: joinSpace xs

/-- `re.split(r'\s*\(', line, 1)[0]`: the text before the leftmost match
of `\s*\(`.  At a given position the pattern matches exactly when the
maximal whitespace run there is followed by `(` (shorter runs expose a
whitespace character, which is not `(`). -/
def splitBeforeParen : List Char → List Char
  | [] => []
  | c :: cs =>
    if (match (c :: cs).dropWhile pyWs with | '(' :: _ => true | _ => false)
    then [] else c :: splitBeforeParen cs

/-- One attempt of `\(([^):]+):?\)\s*:?\s*([^()]+)?` at the head of the
text: literal `(`, greedy nonempty `[^):]` run, optional `:`, literal
`)`, then greedy `\s*`, optional `:`, greedy `\s*`, and an optional
greedy `[^()]+` capture.  Every quantifier here commits to its greedy
choice: backtracking cannot create a missing `)` (shorter `[^):]` runs
expose characters that are neither `:` nor `)`), and everything after
`)` is optional.  Returns both groups (group 2 empty when absent, as in
`re.findall`) and the suffix after the match. -/
def matchContactAt : List Char → Option ((List Char × List Char) × List Char)
  | '(' :: r =>
    let g1 := r.takeWhile notColParen
    if g1.isEmpty then none
    else
      let r1 := r.dropWhile notColParen
      let r2 := match r1 with | ':' :: t => t | _ => r1
      match r2 with
      | ')' :: r3 =>
        let r4 := r3.dropWhile pyWs
        let r5 := match r4 with | ':' :: t => t | _ => r4
        let r6 := r5.dropWhile pyWs
        let g2 := r6.takeWhile notParen
        some ((g1, g2), r6.dropWhile notParen)
      | _ => none
  | _ => none

/-- `re.findall` for the contact pattern: non-overlapping leftmost
matches, resuming after each match. -/
def contactScanF : Nat → List Char → List (List Char × List Char)
  | 0, _ => []
  | fuel + 1, s =>
    match matchContactAt s with
    | some (g, rest) => g :: contactScanF fuel rest
    | none =>
      match s with
      | [] => []
      | _ :: cs => contactScanF fuel cs

/-- `' '.join(matches).strip()` of the designation-line matches
(line 213 of the source). -/
def agentLine (desig : String) (record : List Char) : List Char :=
  strip (joinSpace (agentScanF (record.length + 1) ((desig ++ ":").toList) true record))

/-- `line[len(name_part):].strip()` (line 216): the contacts segment of
a joined designation line, where `name_part` is the stripped text before
the first `\s*\(` match. -/
def agentContactsPart (line : List Char) : List Char :=
  strip (line.drop (strip (splitBeforeParen line)).length)

/-- `parse_agent_line(designation, record)` (lines 198-221): the agent
name and the contacts dict (keys and values stripped; a later duplicate
key overwrites an earlier one via `dictGet`). -/
def parseAgentLine (desig : String) (record : List Char) :
    List Char × List (List Char × List Char) :=
  if (agentScanF (record.length + 1) ((desig ++ ":").toList) true record).isEmpty
  then ([], [])
  else
    (strip (splitBeforeParen (agentLine desig record)),
      (contactScanF ((agentContactsPart (agentLine desig record)).length + 1)
        (agentContactsPart (agentLine desig record))).map
        (fun g => (strip g.1, strip g.2)))

/-- The six agent-role designations (line 252). -/
def designations : List String := ["LO", "LA", "CO-LA", "SO", "SA", "CO-SA"]

/-- The five contact channels (line 253). -/
def contactTypes : List String := ["Phone", "Mobile", "Office", "Email", "Fax"]

/-- Lines 250-261 of the source: for each designation, the `Name` entry
and one entry per contact channel (`contacts_dict.get(ct, '')`). -/
def agentFields (block : List Char) : List (List Char × List Char) :=
  designations.flatMap (fun d =>
    let nc := parseAgentLine d block
    ((d ++ " Name").toList, nc.1) ::
      contactTypes.map (fun ct => ((d ++ " " ++ ct).toList, dictGet nc.2 ct.toList)))

/-- The Record produced from one listing block (lines 239-266): the
field entries in catalogue order followed by the agent entries, as an
insertion-ordered association list with pairwise distinct keys (the
Python dict).  The `try`/`except` around the agent extraction never
fires in this total model. -/
def parseRecord (block : List Char) : List (List Char × List Char) :=
  extractFields block ++ agentFields block

/-- The sequence of Records produced by `parse_data` before the
DataFrame metadata columns are added (lines 224-266). -/
def parseData (s : List Char) : List (List (List Char × List Char)) :=
  (splitRecords s).map parseRecord

/-- Lines 268-277 of the source: the DataFrame rows.  Two metadata
columns are inserted in front of every record: `Created on`, whose value
is the current date at the time of the invocation (`datetime.now`,
passed here as the explicit parameter `createdOn`), and the constant
`Format` column. -/
def parseDataFrame (createdOn : List Char) (s : List Char) :
    List (List (List Char × List Char)) :=
  (parseData s).map (fun r =>
    ("Created on".toList, createdOn) :: ("Format".toList, "Standard".toList) :: r)

/-- Lookup of a named field in a Record. -/
def recGet (r : List (List Char × List Char)) (k : String) : List Char :=
  dictGet r k.toList

/-- The full ordered key set of every Record (catalogue fields, then the
agent-role keys in role order). -/
def recordKeys : List (List Char) :=
  fieldPatterns.map Prod.fst ++
    designations.flatMap (fun d =>
      ((d ++ " Name").toList) ::
        contactTypes.map (fun ct => (d ++ " " ++ ct).toList))

/-- The minimal synthetic fixture of the specification. -/
def fixtureC2 : List Char :=
  "MLS# 12345\nList Price:\t$250,000\nLO: Jane Doe (Phone): 555-1111 (Email): jane@x.com\n".toList

/-- The stripped capture of catalogue rule `i` on a block: the value
`parse_data` stores for that field (lines 242-248). -/
def fieldValueAt (i : Nat) (b : List Char) : List Char :=
  match fieldPatterns.get? i with
  | some p => ((searchCap p.2 b).map strip).getD []
  | none => []

/-- A one-field test block for claim C4: the marker line, then the
label, one delimiter character, and the payload. -/
def c4Block (label : String) (delim : Char) (payload : String) : List Char :=
  ("MLS# 1\n" ++ label).toList ++ delim :: payload.toList

/-- Representative delimiter test cases for claim C4, one per catalogue
rule other than `MLS#` (index 0) and `Close Price` (index 5): rule
index, label text, payload, and the value the rule must extract. -/
def c4Cases : List (Nat × String × String × String) :=
  [ (1, "DOM/CDOM", "1/2", "1/2"),
    (2, "DOM/CDOM", "1/2 Main St", "Main St"),
    (3, "County", "Duval", "Duval"),
    (4, "List Price", "$250,000", "250,000"),
    (6, "Year Built", "1999", "1999"),
    (7, "Living Area", "1,500", "1,500"),
    (8, "Bedrooms Total", "3", "3"),
    (9, "Bathrooms Total", "2", "2"),
    (10, "Garage Spaces", "2", "2"),
    (11, "Parcel Number", "12345", "12345"),
    (12, "Subdivision Name", "Oak Hill", "Oak Hill"),
    (13, "CDD Fee", "Yes", "Yes"),
    (14, "New Construction", "No", "No"),
    (15, "Waterfront", "Yes", "Yes"),
    (16, "Directions", "North on Main", "North on Main"),
    (17, "Public Remarks", "Lovely\nPrivate Remarks: x", "Lovely"),
    (18, "Private Remarks", "hush", "hush"),
    (19, "Appliances", "dish washer", "dish washer"),
    (20, "Approx Parcel Size", "0.25 acres", "0.25 acres"),
    (21, "Architectural Style", "Ranch", "Ranch"),
    (22, "Construction Materials", "Brick", "Brick"),
    (23, "Cooling", "Central", "Central"),
    (24, "Current Use", "Residential", "Residential"),
    (25, "DPR Eligible", "Yes", "Yes"),
    (26, "Fencing", "Wood", "Wood"),
    (27, "Fireplace Features", "One", "One"),
    (28, "Heating", "Central", "Central"),
    (29, "Interior Features", "Ceiling Fans", "Ceiling Fans"),
    (30, "Laundry Features", "In Unit", "In Unit"),
    (31, "Listing Terms", "Cash", "Cash"),
    (32, "Lot Features", "Corner", "Corner"),
    (33, "Parking Features", "Garage", "Garage"),
    (34, "Patio And Porch Features", "Deck", "Deck"),
    (35, "Pool Features", "None", "None"),
    (36, "Possession", "Close", "Close"),
    (37, "Road Surface Type", "Asphalt", "Asphalt"),
    (38, "Roof", "Shingle", "Shingle"),
    (39, "Security Features", "Alarm", "Alarm"),
    (40, "Sewer", "Public", "Public"),
    (41, "Special Listing Conditions", "None", "None"),
    (42, "Utilities", "All", "All"),
    (43, "Water Source", "Public", "Public"),
    (44, "Showing Requirements", "Call", "Call"),
    (45, "Showing Considerations", "Pets", "Pets"),
    (46, "Listing Contract Date", "01/02/2024", "01/02/2024"),
    (47, "Purchase Contract Date", "02/03/2024", "02/03/2024"),
    (48, "Close Date", "03/04/2024", "03/04/2024"),
    (49, "Listing Service", "Full", "Full"),
    (50, "Original List Price", "$300,000", "300,000"),
    (51, "List Price/SqFt", "$123.45", "123.45"),
    (52, "Sold Price/SqFt", "$120.00", "120.00"),
    (53, "Listing Agreement", "Exclusive", "Exclusive"),
    (54, "Contingency Reason", "Inspection", "Inspection"),
    (55, "Buyer Financing", "Conventional", "Conventional"),
    (56, "Concessions", "Yes", "Yes"),
    (57, "BuyersCountryReside", "USA", "USA"),
    (58, "SellersCountryReside", "USA", "USA") ]

/-- One C4 case holds when the rule extracts the expected value from
both the colon-delimited and the tab-delimited block. -/
def c4Holds (e : Nat × String × String × String) : Bool :=
  fieldValueAt e.1 (c4Block e.2.1 ':' e.2.2.1) == e.2.2.2.toList &&
    fieldValueAt e.1 (c4Block e.2.1 '\t' e.2.2.1) == e.2.2.2.toList

/-- The block family of claim C7: the marker line, a `Public Remarks`
label with a colon, a remark body of two lines `l1` and `l2`, and a
following `Private Remarks` label. -/
def c7Block (l1 l2 : List Char) : List Char :=
  "MLS# 1\nPublic Remarks:".toList ++
    (l1 ++ ('\n' :: (l2 ++ "\nPrivate Remarks: z".toList)))

/-!
### Lemmas about the Record Splitter
-/

theorem matchMarkerAt_isSome_append {l t : List Char}
    (h : (matchMarkerAt l).isSome) : (matchMarkerAt (l ++ t)).isSome := by
  unfold matchMarkerAt at h
  split at h
  case h_2 => simp at h
  case h_1 r =>
    simp only at h
    by_cases hd : ((r.dropWhile pyWs).takeWhile pyDigit).isEmpty
    · rw [if_pos hd] at h; simp at h
    · have hr1 : ¬ (r.dropWhile pyWs).isEmpty := by
        intro he
        rw [List.isEmpty_iff] at he
        rw [he] at hd
        simp at hd
      show (matchMarkerAt ('M' :: 'L' :: 'S' :: '#' :: (r ++ t))).isSome
      unfold matchMarkerAt
      simp only
      rw [List.dropWhile_append, if_neg hr1]
      cases hcase : r.dropWhile pyWs with
      | nil => rw [List.isEmpty_iff] at hr1; exact absurd hcase hr1
      | cons d r1' =>
        rw [hcase] at hd
        rw [List.takeWhile_cons] at hd
        by_cases hdig : pyDigit d
        · rw [List.cons_append, List.takeWhile_cons, if_pos hdig]
          simp
        · rw [if_neg hdig] at hd; simp at hd

theorem matchMarkerAt_eq_append {l m r : List Char}
    (h : matchMarkerAt l = some (m, r)) : l = m ++ r ∧ ∃ tl, m = 'M' :: tl := by
  unfold matchMarkerAt at h
  split at h
  case h_2 => simp at h
  case h_1 rest =>
    simp only at h
    split at h
    · simp at h
    · rw [Option.some_inj] at h
      injection h with hm hr
      subst hm hr
      refine ⟨?_, ⟨_, rfl⟩⟩
      simp [List.append_assoc]

theorem findMarker_decomp {s b m r : List Char}
    (h : findMarker s = some (b, m, r)) :
    s = b ++ m ++ r ∧ (∃ tl, m = 'M' :: tl) := by
  induction s generalizing b m r with
  | nil => simp [findMarker] at h
  | cons c cs ih =>
    unfold findMarker at h
    cases hm : matchMarkerAt (c :: cs) with
    | some p =>
      obtain ⟨m0, r0⟩ := p
      rw [hm] at h
      simp only [Option.some_inj] at h
      injection h with hb h2
      injection h2 with hmm hr
      subst hb hmm hr
      obtain ⟨heq, hM⟩ := matchMarkerAt_eq_append hm
      exact ⟨by simp only [List.nil_append]; exact heq, hM⟩
    | none =>
      rw [hm] at h
      cases hfm : findMarker cs with
      | none => rw [hfm] at h; simp at h
      | some t =>
        obtain ⟨b', m', r'⟩ := t
        rw [hfm] at h
        simp only [Option.map] at h
        rw [Option.some_inj] at h
        injection h with hb h2
        injection h2 with hmm hr
        subst hmm hr
        subst hb
        obtain ⟨hd, hM⟩ := ih hfm
        refine ⟨?_, hM⟩
        rw [hd]
        simp [List.append_assoc]

theorem findMarker_head_none {s b m r : List Char}
    (h : findMarker s = some (b, m, r)) : findMarker b = none := by
  induction s generalizing b m r with
  | nil => simp [findMarker] at h
  | cons c cs ih =>
    unfold findMarker at h
    cases hm : matchMarkerAt (c :: cs) with
    | some p =>
      obtain ⟨m0, r0⟩ := p
      rw [hm] at h
      rw [Option.some_inj] at h
      injection h with hb h2
      subst hb
      simp [findMarker]
    | none =>
      rw [hm] at h
      cases hfm : findMarker cs with
      | none => rw [hfm] at h; simp at h
      | some t =>
        obtain ⟨b', m', r'⟩ := t
        rw [hfm] at h
        simp only [Option.map] at h
        rw [Option.some_inj] at h
        injection h with hb h2
        injection h2 with hmm hr
        subst hmm hr hb
        have ihb : findMarker b' = none := ih hfm
        unfold findMarker
        cases hcb : matchMarkerAt (c :: b') with
        | some q =>
          exfalso
          obtain ⟨hd, _⟩ := findMarker_decomp hfm
          have hsome : (matchMarkerAt ((c :: b') ++ (m' ++ r'))).isSome :=
            matchMarkerAt_isSome_append (by rw [hcb]; rfl)
          have hrw : (c :: b') ++ (m' ++ r') = c :: cs := by
            rw [hd]; simp [List.append_assoc]
          rw [hrw, hm] at hsome
          simp at hsome
        | none => simp [hcb, ihb]

theorem reSplitF_eq_segs : ∀ (fuel : Nat) (s : List Char), s.length < fuel →
    reSplitF fuel s = contentBefore s :: flatPairs (mlsSegsF fuel s) := by
  intro fuel
  induction fuel with
  | zero => intro s h; exact absurd h (Nat.not_lt_zero _)
  | succ fuel ih =>
    intro s hlen
    unfold reSplitF mlsSegsF contentBefore
    cases hfm : findMarker s with
    | none => simp [hfm, flatPairs]
    | some t =>
      obtain ⟨b, m, r⟩ := t
      obtain ⟨hd, tl, hMm⟩ := findMarker_decomp hfm
      have hr : r.length < fuel := by
        subst hd hMm
        simp [List.length_append] at hlen
        omega
      dsimp only
      rw [ih r hr]
      simp [flatPairs, contentBefore]

theorem findMarker_contentBefore (s : List Char) :
    findMarker (contentBefore s) = none := by
  unfold contentBefore
  cases hfm : findMarker s with
  | none => exact hfm
  | some t =>
    obtain ⟨b, m, r⟩ := t
    simp only
    exact findMarker_head_none hfm

theorem pairRecords_cons2 (m c : List Char) (rest : List (List Char)) :
    pairRecords (m :: c :: rest) =
      (if !(strip m).isEmpty && !(strip c).isEmpty
       then [strip m ++ '\n' :: strip c] else []) ++ pairRecords rest := rfl

theorem pairRecords_flatPairs : ∀ (l : List (List Char × List Char)),
    (∀ p ∈ l, (strip p.1).isEmpty = false) →
    pairRecords (flatPairs l) =
      ((l.filter (fun p => !(strip p.2).isEmpty)).map
        (fun p => strip p.1 ++ '\n' :: strip p.2)) := by
  intro l
  induction l with
  | nil => intro _; rfl
  | cons p l ih =>
    intro hall
    obtain ⟨m, c⟩ := p
    have hm : (strip m).isEmpty = false := hall (m, c) (List.mem_cons_self _ _)
    show pairRecords (m :: c :: flatPairs l) = _
    rw [pairRecords_cons2]
    rw [ih (fun q hq => hall q (List.mem_cons_of_mem _ hq))]
    rw [List.filter_cons]
    cases hc : (strip c).isEmpty with
    | true => simp [hm, hc]
    | false => simp [hm, hc]

theorem mlsSegsF_marker_head : ∀ (fuel : Nat) (s : List Char) p,
    p ∈ mlsSegsF fuel s → ∃ tl, p.1 = 'M' :: tl := by
  intro fuel
  induction fuel with
  | zero => intro s p h; simp [mlsSegsF] at h
  | succ fuel ih =>
    intro s p h
    unfold mlsSegsF at h
    cases hfm : findMarker s with
    | none => rw [hfm] at h; simp at h
    | some t =>
      obtain ⟨b, m, r⟩ := t
      rw [hfm] at h
      simp only [List.mem_cons] at h
      cases h with
      | inl he =>
        subst he
        exact (findMarker_decomp hfm).2
      | inr hmem => exact ih r p hmem

theorem strip_cons_M_ne (tl : List Char) : (strip ('M' :: tl)).isEmpty = false := by
  unfold strip
  have hM : pyWs 'M' = false := rfl
  rw [List.dropWhile_cons_of_neg (by simp [hM])]
  rw [List.reverse_cons, List.dropWhile_append]
  split
  · rw [List.dropWhile_cons_of_neg (by simp [hM])]
    simp
  · simp

/-- Master description of the Record Splitter: the blocks are exactly
the markers whose stripped following content is nonempty, each rendered
as `strip marker ++ "\n" ++ strip content`, in document order. -/
theorem splitRecords_characterization (s : List Char) :
    splitRecords s =
      ((mlsSegs s).filter (fun p => !(strip p.2).isEmpty)).map
        (fun p => strip p.1 ++ '\n' :: strip p.2) := by
  unfold splitRecords reSplitMLS
  rw [reSplitF_eq_segs (s.length + 1) s (Nat.lt_succ_self _)]
  unfold dropNonMarkerHead
  simp only [findMarker_contentBefore, Option.isSome_none, Bool.false_eq_true, if_false]
  exact pairRecords_flatPairs _ (fun p hp => by
    obtain ⟨tl, htl⟩ := mlsSegsF_marker_head _ _ p hp
    rw [htl]
    exact strip_cons_M_ne tl)

theorem mlsSegsF_succ (fuel : Nat) (s : List Char) :
    mlsSegsF (fuel + 1) s =
      match findMarker s with
      | none => []
      | some (_, m, r) => (m, contentBefore r) :: mlsSegsF fuel r := rfl

/-!
### Claims C1, C8, C9: behaviour of the Record Splitter
-/

/-- Claim C1, counterexample: the input `"MLS# 1"` contains one valid
MLS marker, but the splitter returns zero blocks, because the marker is
followed by no content; the claim asserts that exactly one block would
be returned even in that case. -/
theorem c1_counterexample :
    mlsMarkerCount ("MLS# 1".toList) = 1 ∧
    (splitRecords ("MLS# 1".toList)).length ≠ 1 := by
  decide

/-- Claim C1, amended: for every input text, the splitter returns one
block per marker whose following content (up to the next marker or the
end of the document) is not whitespace-only, in document order, each
block consisting of that marker, a newline, and the stripped content;
markers followed by empty or whitespace-only content contribute no
block. -/
theorem c1_amended (s : List Char) :
    splitRecords s =
      ((mlsSegs s).filter (fun p => !(strip p.2).isEmpty)).map
        (fun p => strip p.1 ++ '\n' :: strip p.2) :=
  splitRecords_characterization s

/-- Claim C9: the number of Records produced equals the number of
markers that are followed by at least one non-whitespace character
before the next marker (equivalently: whose stripped content is
nonempty). -/
theorem c9_record_count (s : List Char) :
    (parseData s).length =
      ((mlsSegs s).filter (fun p => !(strip p.2).isEmpty)).length := by
  unfold parseData
  rw [List.length_map, splitRecords_characterization, List.length_map]

/-- Claim C8: an input containing zero MLS markers parses to the empty
Record sequence (the total model never raises; the empty sequence is
the same result a marker-free valid document would produce). -/
theorem c8_no_markers (s : List Char) (h : mlsMarkerCount s = 0) :
    parseData s = [] := by
  have hsegs : mlsSegs s = [] := List.length_eq_zero.mp h
  unfold parseData
  rw [splitRecords_characterization, hsegs]
  rfl

/-- Witness for C8 at a concrete marker-free input. -/
theorem c8_witness :
    mlsMarkerCount ("no markers here".toList) = 0 ∧
    parseData ("no markers here".toList) = [] :=
  ⟨by decide, c8_no_markers _ (by decide)⟩

/-!
### Stripped-ness lemmas (for C3 and C10)
-/

theorem strip_eq_rdrop (s : List Char) :
    strip s = (s.dropWhile pyWs).rdropWhile pyWs := rfl

theorem strip_nil : strip [] = [] := rfl

theorem strip_strip (s : List Char) : strip (strip s) = strip s := by
  rw [strip_eq_rdrop, strip_eq_rdrop]
  have h1 : List.dropWhile pyWs ((List.dropWhile pyWs s).rdropWhile pyWs) =
      (List.dropWhile pyWs s).rdropWhile pyWs := by
    rcases hu : (List.dropWhile pyWs s).rdropWhile pyWs with _ | ⟨x, t⟩
    · rfl
    · have hpre : (List.dropWhile pyWs s).rdropWhile pyWs <+: List.dropWhile pyWs s :=
        List.rdropWhile_prefix _ _
      rw [hu] at hpre
      obtain ⟨t2, ht2⟩ := hpre
      have hx : pyWs x = false := by
        have hh := List.head?_dropWhile_not pyWs s
        rw [← ht2] at hh
        simpa using hh
      rw [List.dropWhile_cons_of_neg (by simp [hx])]
  rw [h1, List.rdropWhile_idempotent]

theorem foldl_dictGet_inv :
    ∀ (l : List (List Char × List Char)) (k : List Char) (acc : Option (List Char)),
      (∀ p ∈ l, strip p.2 = p.2) → (∀ v, acc = some v → strip v = v) →
      ∀ v, l.foldl (fun acc p => if p.1 = k then some p.2 else acc) acc = some v →
        strip v = v := by
  intro l
  induction l with
  | nil => intro k acc _ hacc v hv; exact hacc v hv
  | cons p l ih =>
    intro k acc hl hacc v hv
    rw [List.foldl_cons] at hv
    refine ih k _ (fun q hq => hl q (List.mem_cons_of_mem _ hq)) ?_ v hv
    intro w hw
    by_cases hpk : p.1 = k
    · rw [if_pos hpk, Option.some_inj] at hw
      rw [← hw]
      exact hl p (List.mem_cons_self _ _)
    · rw [if_neg hpk] at hw
      exact hacc w hw

theorem strip_dictGet (l : List (List Char × List Char)) (k : List Char)
    (hl : ∀ p ∈ l, strip p.2 = p.2) : strip (dictGet l k) = dictGet l k := by
  unfold dictGet
  cases hfold : l.foldl (fun acc p => if p.1 = k then some p.2 else acc)
      (none : Option (List Char)) with
  | none => simp [strip_nil]
  | some v =>
    simp only [Option.getD_some]
    exact foldl_dictGet_inv l k none hl (by intro v hv; cases hv) v hfold

theorem strip_pair_map (gs : List (List Char × List Char)) :
    ∀ p ∈ gs.map (fun g => (strip g.1, strip g.2)), strip p.2 = p.2 := by
  intro p hp
  obtain ⟨g, _, hg⟩ := List.mem_map.mp hp
  rw [← hg]
  exact strip_strip _

theorem parseAgentLine_name_stripped (d : String) (b : List Char) :
    strip (parseAgentLine d b).1 = (parseAgentLine d b).1 := by
  unfold parseAgentLine
  generalize agentScanF (b.length + 1) ((d ++ ":").toList) true b = ms
  generalize contactScanF ((agentContactsPart (agentLine d b)).length + 1)
      (agentContactsPart (agentLine d b)) = gs
  generalize hnm : strip (splitBeforeParen (agentLine d b)) = nm
  by_cases hms : ms.isEmpty
  · rw [if_pos hms]
    rfl
  · rw [if_neg hms]
    show strip nm = nm
    rw [← hnm]
    exact strip_strip _

theorem parseAgentLine_contacts_stripped (d : String) (b : List Char) :
    ∀ p ∈ (parseAgentLine d b).2, strip p.2 = p.2 := by
  unfold parseAgentLine
  generalize agentScanF (b.length + 1) ((d ++ ":").toList) true b = ms
  generalize contactScanF ((agentContactsPart (agentLine d b)).length + 1)
      (agentContactsPart (agentLine d b)) = gs
  generalize strip (splitBeforeParen (agentLine d b)) = nm
  by_cases hms : ms.isEmpty
  · rw [if_pos hms]
    intro p hp
    simp at hp
  · rw [if_neg hms]
    exact strip_pair_map gs

/-!
### Claims C3 and C10
-/

/-- Claim C3: every Record carries exactly the catalogue field names
followed by the agent-role keys, each exactly once (`recordKeys` has no
duplicates); a field whose pattern does not match the block is present
with the empty string; hence every Record of one run has the same keys. -/
theorem c3_uniform_records (b : List Char) :
    (parseRecord b).map Prod.fst = recordKeys ∧
    recordKeys.Nodup ∧
    (∀ (i : Nat) (h : i < fieldPatterns.length),
      searchCap (fieldPatterns.get ⟨i, h⟩).2 b = none →
      ((fieldPatterns.get ⟨i, h⟩).1, ([] : List Char)) ∈ parseRecord b) ∧
    (∀ (s : List Char) (r : List (List Char × List Char)),
      r ∈ parseData s → r.map Prod.fst = recordKeys) := by
  have hkeys : ∀ b' : List Char, (parseRecord b').map Prod.fst = recordKeys := by
    intro b'
    rfl
  refine ⟨hkeys b, by decide, ?_, ?_⟩
  · intro i h hnone
    unfold parseRecord
    apply List.mem_append_left
    unfold extractFields
    have hmem := List.mem_map_of_mem
      (fun p => (p.1, ((searchCap p.2 b).map strip).getD []))
      (List.get_mem fieldPatterns i h)
    simp only [hnone] at hmem
    simpa using hmem
  · intro s r hr
    unfold parseData at hr
    obtain ⟨blk, _, hblk⟩ := List.mem_map.mp hr
    rw [← hblk]
    exact hkeys blk

/-- Witness for C3 at a concrete block and field (the `DOM/CDOM` rule
does not match the block `"x"`, so the Record stores the empty string). -/
theorem c3_witness :
    ("DOM/CDOM".toList, ([] : List Char)) ∈ parseRecord ("x".toList) := by
  have h := (c3_uniform_records ("x".toList)).2.2.1 1 (by decide) (by decide)
  simpa using h

/-- Claim C10: every value stored in every produced Record is trimmed:
stripping it again changes nothing (no leading or trailing whitespace). -/
theorem c10_values_trimmed (s : List Char) (r : List (List Char × List Char))
    (hr : r ∈ parseData s) (kv : List Char × List Char) (hkv : kv ∈ r) :
    strip kv.2 = kv.2 := by
  unfold parseData at hr
  obtain ⟨blk, _, hblk⟩ := List.mem_map.mp hr
  rw [← hblk] at hkv
  unfold parseRecord at hkv
  rcases List.mem_append.mp hkv with hf | ha
  · unfold extractFields at hf
    obtain ⟨p, _, hp⟩ := List.mem_map.mp hf
    rw [← hp]
    cases hsc : searchCap p.2 blk with
    | none => simp [hsc, strip_nil]
    | some g => simp [hsc, strip_strip]
  · unfold agentFields at ha
    obtain ⟨d, _, hd⟩ := List.mem_flatMap.mp ha
    rcases List.mem_cons.mp hd with he | hc
    · rw [he]
      exact parseAgentLine_name_stripped d blk
    · obtain ⟨ct, _, hct⟩ := List.mem_map.mp hc
      rw [← hct]
      exact strip_dictGet _ _ (parseAgentLine_contacts_stripped d blk)

/-- Witness for C10 at a concrete input, record and entry. -/
theorem c10_witness :
    strip (((parseData ("MLS# 1\nCounty: Duval".toList)).headD []).headD
      ([], [])).2 =
    (((parseData ("MLS# 1\nCounty: Duval".toList)).headD []).headD ([], [])).2 :=
  c10_values_trimmed ("MLS# 1\nCounty: Duval".toList)
    ((parseData ("MLS# 1\nCounty: Duval".toList)).headD [])
    (by decide)
    (((parseData ("MLS# 1\nCounty: Duval".toList)).headD []).headD ([], []))
    (by decide)

/-- Claim C2: parsing the minimal synthetic fixture yields exactly one
Record whose `MLS#`, `List Price`, `LO Name`, `LO Phone`, `LO Email` and
`LO Mobile` fields have the stated values. -/
theorem c2_fixture_roundtrip :
    (parseData fixtureC2).length = 1 ∧
    recGet ((parseData fixtureC2).headD []) "MLS#" = "12345".toList ∧
    recGet ((parseData fixtureC2).headD []) "List Price" = "250,000".toList ∧
    recGet ((parseData fixtureC2).headD []) "LO Name" = "Jane Doe".toList ∧
    recGet ((parseData fixtureC2).headD []) "LO Phone" = "555-1111".toList ∧
    recGet ((parseData fixtureC2).headD []) "LO Email" = "jane@x.com".toList ∧
    recGet ((parseData fixtureC2).headD []) "LO Mobile" = [] := by
  decide

/-!
### Claims C4, C5, C6
-/

/-- Claim C4, counterexample: the `Close Price` rule (catalogue index 5)
does not accept a tab delimiter: its pattern requires a literal colon,
so the tab-delimited block yields the empty string instead of the value. -/
theorem c4_counterexample :
    (fieldPatterns.get? 5).map Prod.fst = some ("Close Price".toList) ∧
    recGet (parseRecord (c4Block "Close Price" '\t' "$100")) "Close Price" ≠
      "100".toList := by
  decide

/-- Claim C4, amended: every catalogue rule except `MLS#` (index 0,
whose pattern has no colon/tab delimiter at all) and `Close Price`
(index 5, whose pattern demands a colon) extracts the same value whether
the label is followed by a colon or by a tab, witnessed on a
representative value per rule; `Close Price` extracts the value after a
colon but the empty string after a tab. -/
theorem c4_amended :
    c4Cases.map (fun e => e.1) =
      (List.range fieldPatterns.length).filter (fun i => !(i == 0) && !(i == 5)) ∧
    c4Cases.all c4Holds = true ∧
    (fieldPatterns.get? 5).map Prod.fst = some ("Close Price".toList) ∧
    fieldValueAt 5 (c4Block "Close Price" ':' " $100") = "100".toList ∧
    fieldValueAt 5 (c4Block "Close Price" '\t' "$100") = [] := by
  decide

/-- Claim C5, counterexample: two invocations of the parser on the very
same text disagree when their run dates differ: the `Created on` column
is read from the clock (`datetime.now`, lines 271-274, modelled as the
explicit `createdOn` parameter), which is state outside the input text. -/
theorem c5_counterexample :
    parseDataFrame ("01/01/25".toList) ("MLS# 1\nx".toList) ≠
      parseDataFrame ("01/02/25".toList) ("MLS# 1\nx".toList) := by
  decide

/-- Claim C5, amended: with the run date fixed, parsing the same text
twice yields identical Record sequences (the model is a pure function),
and every column other than the run-date metadata column `Created on`
is identical across invocations regardless of the clock. -/
theorem c5_amended (d1 d2 s : List Char) :
    parseDataFrame d1 s = parseDataFrame d1 s ∧
    (parseDataFrame d1 s).map List.tail = (parseDataFrame d2 s).map List.tail := by
  refine ⟨rfl, ?_⟩
  unfold parseDataFrame
  rw [List.map_map, List.map_map]
  rfl

/-- Claim C6, counterexample: a lower-case channel label `(phone)` is
not mapped to the `Phone` channel: the contacts dict keeps the label
case-preserved and line 261 looks the channel up case-sensitively, so
the Record's `LO Phone` stays empty. -/
theorem c6_counterexample :
    recGet (parseRecord ("MLS# 1\nLO: Jane (phone): 555-1111".toList)) "LO Phone" ≠
      "555-1111".toList := by
  decide

/-- Claim C6, amended: parenthesized channel labels are matched
tolerantly of surrounding whitespace (the label is stripped before it
becomes the dict key: `( Phone )` maps to the Phone channel) but
case-sensitively (`(phone)` leaves the Phone channel empty; its value
sits under the unredeemed key `phone` in the contacts dict). -/
theorem c6_amended :
    recGet (parseRecord ("MLS# 1\nLO: Jane ( Phone ): 555-1111".toList)) "LO Phone" =
      "555-1111".toList ∧
    recGet (parseRecord ("MLS# 1\nLO: Jane (phone): 555-1111".toList)) "LO Phone" = [] ∧
    dictGet (parseAgentLine "LO" ("MLS# 1\nLO: Jane (phone): 555-1111".toList)).2
      ("phone".toList) = "555-1111".toList := by
  decide

/-!
### Claim C7: multi-line free-text capture

The lemmas below analyse the `Public Remarks` rule on the block family
`c7Block l1 l2`: the lazy capture stops exactly at the final
`\nPrivate Remarks:` label, so both body lines and the newline between
them are captured.
-/

theorem searchCap_cons_none {m : List Char → Option (List Char)} {c : Char}
    {cs : List Char} (h : m (c :: cs) = none) :
    searchCap m (c :: cs) = searchCap m cs := by
  have hu : searchCap m (c :: cs) =
      (m (c :: cs)).orElse (fun _ => searchCap m cs) := rfl
  rw [hu, h]
  rfl

theorem searchCap_cons_some {m : List Char → Option (List Char)} {c : Char}
    {cs v : List Char} (h : m (c :: cs) = some v) :
    searchCap m (c :: cs) = some v := by
  have hu : searchCap m (c :: cs) =
      (m (c :: cs)).orElse (fun _ => searchCap m cs) := rfl
  rw [hu, h]
  rfl

theorem runSplits_eq_single {P : Char → Bool} {s : List Char}
    (h : s.takeWhile P = []) : runSplits P s = [([], s)] := by
  unfold runSplits
  rw [h]
  rfl

theorem runSplits_eq_pair {P : Char → Bool} {c : Char} {s : List Char}
    (hc : P c = true) (h : s.takeWhile P = []) :
    runSplits P (c :: s) = [([c], s), ([], c :: s)] := by
  unfold runSplits
  rw [List.takeWhile_cons_of_pos hc, h]
  rfl

theorem afterWsOpt_head {k : List Char → Option (List Char)} {s v : List Char}
    (hs : s.takeWhile pyWs = []) (hk : k s = some v) :
    afterWsOpt k s = some v := by
  unfold afterWsOpt
  rw [runSplits_eq_single hs, List.findSome?_cons]
  simp [hk]

theorem afterDelim_single {k : List Char → Option (List Char)} {c : Char}
    {s v : List Char} (hc : colTab c = true) (hs : s.takeWhile colTab = [])
    (hk : k s = some v) : afterDelim k (c :: s) = some v := by
  unfold afterDelim
  rw [runSplits_eq_pair hc hs, List.findSome?_cons]
  simp [hk]

theorem stopPub_iff (z : List Char) :
    stopPub z = true ↔
      ∃ k, k ≤ (z.takeWhile pyWs).length ∧
        ("\nPrivate Remarks:".toList).isPrefixOf (z.drop k) = true := by
  unfold stopPub runSplits
  rw [List.any_eq_true]
  constructor
  · rintro ⟨p, hp, hf⟩
    rw [List.mem_map] at hp
    obtain ⟨k, hk, he⟩ := hp
    rw [List.mem_reverse, List.mem_range] at hk
    refine ⟨k, by omega, ?_⟩
    rw [← he] at hf
    exact hf
  · rintro ⟨k, hk, hf⟩
    refine ⟨(z.take k, z.drop k), ?_, hf⟩
    rw [List.mem_map]
    exact ⟨k, by rw [List.mem_reverse, List.mem_range]; omega, rfl⟩

theorem stopPub_eq_false {z : List Char}
    (h : ∀ k, k ≤ (z.takeWhile pyWs).length →
      ("\nPrivate Remarks:".toList).isPrefixOf (z.drop k) = false) :
    stopPub z = false := by
  rw [Bool.eq_false_iff]
  intro htrue
  obtain ⟨k, hk, hf⟩ := (stopPub_iff z).mp htrue
  rw [h k hk] at hf
  cases hf

theorem takeWhile_concat_length_lt (P : Char → Bool) (u2 : List Char) (e : Char)
    (rest : List Char) (he : P e = false) :
    (((u2 ++ [e]) ++ rest).takeWhile P).length < (u2 ++ [e]).length := by
  rw [List.takeWhile_append]
  split
  case isTrue h =>
    exfalso
    have hpre : (u2 ++ [e]).takeWhile P <+: (u2 ++ [e]) := List.takeWhile_prefix P
    have heq : (u2 ++ [e]).takeWhile P = u2 ++ [e] := hpre.eq_of_length h
    have hm : P e = true := List.mem_takeWhile_imp
      (by rw [heq]; exact List.mem_append_right _ (by simp))
    rw [he] at hm
    cases hm
  case isFalse h =>
    have hle : ((u2 ++ [e]).takeWhile P).length ≤ (u2 ++ [e]).length :=
      (List.takeWhile_prefix P).length_le
    omega

theorem stopLit_not_prefix_inside {u rest : List Char} {k : Nat}
    (hlt : k < u.length) (hnl : ∀ c ∈ u, c ≠ '\n')
    (hb : ("\nPrivate Remarks:".toList).isPrefixOf (u.drop k ++ rest) = true) :
    False := by
  have hd : u.drop k ≠ [] := by
    intro hnil
    rw [List.drop_eq_nil_iff] at hnil
    omega
  obtain ⟨c, cc, hcc⟩ := List.exists_cons_of_ne_nil hd
  rw [List.isPrefixOf_iff_prefix] at hb
  obtain ⟨t, ht⟩ := hb
  rw [hcc, List.cons_append] at ht
  have ht2 : '\n' :: ("Private Remarks:".toList ++ t) = c :: (cc ++ rest) := ht
  injection ht2 with h1 _
  have hcu : c ∈ u := by
    have hcd : c ∈ u.drop k := by
      rw [hcc]
      exact List.mem_cons_self _ _
    exact (List.drop_sublist _ _).subset hcd
  exact hnl c hcu h1.symm

theorem privlit_not_prefix_aux {l2 t : List Char}
    (hpr : ("Private Remarks:".toList).isPrefixOf l2 = false)
    (ht : "Private Remarks:".toList ++ t = l2 ++ "\nPrivate Remarks: z".toList) :
    False := by
  rcases List.append_eq_append_iff.mp ht with ⟨a2, ha1, _⟩ | ⟨c2, hc1, hc2⟩
  · have hx : ("Private Remarks:".toList).isPrefixOf l2 = true := by
      rw [List.isPrefixOf_iff_prefix]
      exact ⟨a2, ha1.symm⟩
    rw [hpr] at hx
    cases hx
  · cases hcn : c2 with
    | nil =>
      rw [hcn, List.append_nil] at hc1
      have hx : ("Private Remarks:".toList).isPrefixOf l2 = true := by
        rw [List.isPrefixOf_iff_prefix, ← hc1]
      rw [hpr] at hx
      cases hx
    | cons c cc =>
      rw [hcn] at hc1 hc2
      have hc3 : '\n' :: "Private Remarks: z".toList = c :: (cc ++ t) := hc2
      injection hc3 with h1 _
      have hcP : c ∈ "Private Remarks:".toList := by
        rw [hc1]
        exact List.mem_append_right _ (List.mem_cons_self _ _)
      have hcne : c ≠ '\n' := by
        intro heq
        rw [heq] at hcP
        revert hcP
        decide
      exact hcne h1.symm

theorem stopPub_false_append {u2 rest : List Char} {e : Char}
    (he : pyWs e = false)
    (hnl : ∀ c ∈ u2 ++ [e], c ≠ '\n') :
    stopPub ((u2 ++ [e]) ++ rest) = false := by
  apply stopPub_eq_false
  intro k hk
  by_contra hb
  rw [Bool.not_eq_false] at hb
  have hlt : k < (u2 ++ [e]).length := by
    have h2 := takeWhile_concat_length_lt pyWs u2 e rest he
    omega
  have hdrop : ((u2 ++ [e]) ++ rest).drop k = (u2 ++ [e]).drop k ++ rest := by
    rw [List.drop_append_eq_append_drop]
    have hz : k - (u2 ++ [e]).length = 0 := by omega
    rw [hz]
    rfl
  rw [hdrop] at hb
  exact stopLit_not_prefix_inside hlt hnl hb

theorem stopPub_false_nl_cons {l2x : List Char} {b2 : Char}
    (hb2 : pyWs b2 = false)
    (h2nl : ∀ c ∈ l2x ++ [b2], c ≠ '\n')
    (hpr : ("Private Remarks:".toList).isPrefixOf (l2x ++ [b2]) = false) :
    stopPub ('\n' :: ((l2x ++ [b2]) ++ "\nPrivate Remarks: z".toList)) = false := by
  apply stopPub_eq_false
  intro k hk
  by_contra hb
  rw [Bool.not_eq_false] at hb
  rw [List.takeWhile_cons_of_pos (by decide : pyWs '\n' = true)] at hk
  rw [List.length_cons] at hk
  have hK2 := takeWhile_concat_length_lt pyWs l2x b2
    ("\nPrivate Remarks: z".toList) hb2
  cases k with
  | zero =>
    rw [List.drop_zero] at hb
    rw [List.isPrefixOf_iff_prefix] at hb
    obtain ⟨t, ht⟩ := hb
    have ht2 : '\n' :: ("Private Remarks:".toList ++ t) =
        '\n' :: ((l2x ++ [b2]) ++ "\nPrivate Remarks: z".toList) := ht
    injection ht2 with _ h2
    exact privlit_not_prefix_aux hpr h2
  | succ k2 =>
    have hk2 : k2 < (l2x ++ [b2]).length := by omega
    have hdrop : ('\n' :: ((l2x ++ [b2]) ++ "\nPrivate Remarks: z".toList)).drop (k2 + 1) =
        (l2x ++ [b2]).drop k2 ++ "\nPrivate Remarks: z".toList := by
      rw [List.drop_succ_cons, List.drop_append_eq_append_drop]
      have hz : k2 - (l2x ++ [b2]).length = 0 := by omega
      rw [hz]
      rfl
    rw [hdrop] at hb
    exact stopLit_not_prefix_inside hk2 h2nl hb

theorem suffix_append_split {u x y : List Char} (h : u <:+ x ++ y) :
    u <:+ y ∨ ∃ w, w <:+ x ∧ w ≠ [] ∧ u = w ++ y := by
  induction x with
  | nil =>
    left
    simpa using h
  | cons c x ih =>
    rw [List.cons_append] at h
    rcases List.suffix_cons_iff.mp h with he | hs
    · right
      exact ⟨c :: x, List.suffix_refl _, by simp, by rw [he, List.cons_append]⟩
    · rcases ih hs with h1 | ⟨w, hw, hne, he⟩
      · left
        exact h1
      · right
        exact ⟨w, hw.trans (List.suffix_cons c x), hne, he⟩

theorem suffix_concat_ne_nil {u x : List Char} {e : Char}
    (h : u <:+ x ++ [e]) (hne : u ≠ []) : ∃ u2, u = u2 ++ [e] := by
  obtain ⟨p, hp⟩ := h
  refine ⟨u.dropLast, ?_⟩
  have hu : u.dropLast ++ [u.getLast hne] = u := List.dropLast_append_getLast hne
  have hall : (p ++ u.dropLast) ++ [u.getLast hne] = x ++ [e] := by
    rw [List.append_assoc, hu, hp]
  obtain ⟨-, h3⟩ := List.append_inj' hall rfl
  injection h3 with h4 _
  rw [← h4]
  exact hu.symm

theorem lazyCapUntil_append {stop : List Char → Bool} {S : List Char}
    (hS : stop S = true) :
    ∀ v : List Char, (∀ u, u <:+ v → u ≠ [] → stop (u ++ S) = false) →
      lazyCapUntil stop (v ++ S) = some v := by
  intro v
  induction v with
  | nil =>
    intro _
    rw [List.nil_append]
    cases S with
    | nil =>
      unfold lazyCapUntil
      rw [if_pos hS]
    | cons c cs =>
      unfold lazyCapUntil
      rw [if_pos hS]
  | cons c v ih =>
    intro hno
    rw [List.cons_append]
    have hf : stop (c :: (v ++ S)) = false := by
      have h0 := hno (c :: v) (List.suffix_refl _) (by simp)
      rw [List.cons_append] at h0
      exact h0
    unfold lazyCapUntil
    rw [if_neg (by simp [hf])]
    rw [ih (fun u hu hune => hno u (hu.trans (List.suffix_cons c v)) hune)]
    rfl

theorem strip_eq_self_concat (hd : Char) (mid : List Char) (e : Char)
    (hh : pyWs hd = false) (he : pyWs e = false) :
    strip (hd :: (mid ++ [e])) = hd :: (mid ++ [e]) := by
  unfold strip
  rw [List.dropWhile_cons_of_neg (by simp [hh])]
  have hrev : (hd :: (mid ++ [e])).reverse = e :: (mid.reverse ++ [hd]) := by
    simp
  rw [hrev, List.dropWhile_cons_of_neg (by simp [he]), ← hrev, List.reverse_reverse]

theorem foldl_dictGet_skip (k : List Char) :
    ∀ (l : List (List Char × List Char)) (acc : Option (List Char)),
      (∀ p ∈ l, p.1 ≠ k) →
      l.foldl (fun acc p => if p.1 = k then some p.2 else acc) acc = acc := by
  intro l
  induction l with
  | nil => intro acc _; rfl
  | cons p l ih =>
    intro acc h
    rw [List.foldl_cons, if_neg (h p (List.mem_cons_self _ _))]
    exact ih acc (fun q hq => h q (List.mem_cons_of_mem _ hq))

theorem dictGet_append_right (l1 l2 : List (List Char × List Char)) (k : List Char)
    (h : ∀ p ∈ l2, p.1 ≠ k) : dictGet (l1 ++ l2) k = dictGet l1 k := by
  unfold dictGet
  rw [List.foldl_append, foldl_dictGet_skip k l2 _ h]

theorem dictGet_append_cons (l1 l2 : List (List Char × List Char)) (k v : List Char)
    (h : ∀ p ∈ l2, p.1 ≠ k) :
    dictGet (l1 ++ (k, v) :: l2) k = v := by
  unfold dictGet
  rw [List.foldl_append, List.foldl_cons, foldl_dictGet_skip k l2 _ h]
  simp

theorem agentFields_keys_ne (b : List Char) (k : List Char)
    (hk : ∀ d ∈ designations, (d ++ " Name").toList ≠ k ∧
      ∀ ct ∈ contactTypes, (d ++ " " ++ ct).toList ≠ k) :
    ∀ p ∈ agentFields b, p.1 ≠ k := by
  intro p hp
  unfold agentFields at hp
  obtain ⟨d, hd, hmem⟩ := List.mem_flatMap.mp hp
  rcases List.mem_cons.mp hmem with he | hc
  · rw [he]
    exact (hk d hd).1
  · obtain ⟨ct, hct, he⟩ := List.mem_map.mp hc
    rw [← he]
    exact (hk d hd).2 ct hct

theorem fieldPatterns_split :
    fieldPatterns = fieldPatterns.take 17 ++
      ("Public Remarks".toList, stdMatch "Public Remarks" (lazyCapUntil stopPub)) ::
        fieldPatterns.drop 18 := rfl

/-- The `Public Remarks` entry of a Record is exactly the stripped
capture of the `Public Remarks` rule. -/
theorem recGet_publicRemarks (b : List Char) :
    recGet (parseRecord b) "Public Remarks" =
      ((searchCap (stdMatch "Public Remarks" (lazyCapUntil stopPub)) b).map
        strip).getD [] := by
  unfold recGet parseRecord
  rw [dictGet_append_right _ _ _ (agentFields_keys_ne b _ (by decide))]
  unfold extractFields
  rw [fieldPatterns_split, List.map_append, List.map_cons]
  refine dictGet_append_cons _ _ _ _ ?_
  intro p hp
  obtain ⟨q, hq, he⟩ := List.mem_map.mp hp
  rw [← he]
  have hall : ∀ r ∈ fieldPatterns.drop 18, r.1 ≠ "Public Remarks".toList := by
    decide
  exact hall q hq

theorem searchCap_skip7 {m : List Char → Option (List Char)} {X : List Char}
    (h1 : m ('M' :: 'L' :: 'S' :: '#' :: ' ' :: '1' :: '\n' :: X) = none)
    (h2 : m ('L' :: 'S' :: '#' :: ' ' :: '1' :: '\n' :: X) = none)
    (h3 : m ('S' :: '#' :: ' ' :: '1' :: '\n' :: X) = none)
    (h4 : m ('#' :: ' ' :: '1' :: '\n' :: X) = none)
    (h5 : m (' ' :: '1' :: '\n' :: X) = none)
    (h6 : m ('1' :: '\n' :: X) = none)
    (h7 : m ('\n' :: X) = none) :
    searchCap m ('M' :: 'L' :: 'S' :: '#' :: ' ' :: '1' :: '\n' :: X) =
      searchCap m X := by
  rw [searchCap_cons_none h1, searchCap_cons_none h2, searchCap_cons_none h3,
    searchCap_cons_none h4, searchCap_cons_none h5, searchCap_cons_none h6,
    searchCap_cons_none h7]

theorem lazyCap_body (l1x l2x : List Char) (e1 b2 : Char)
    (he1 : pyWs e1 = false) (hb2 : pyWs b2 = false)
    (h1nl : ∀ c ∈ l1x ++ [e1], c ≠ '\n')
    (h2nl : ∀ c ∈ l2x ++ [b2], c ≠ '\n')
    (hpr : ("Private Remarks:".toList).isPrefixOf (l2x ++ [b2]) = false) :
    lazyCapUntil stopPub
      (((l1x ++ [e1]) ++ '\n' :: (l2x ++ [b2])) ++ "\nPrivate Remarks: z".toList) =
      some ((l1x ++ [e1]) ++ '\n' :: (l2x ++ [b2])) := by
  apply lazyCapUntil_append (by decide)
  intro u hu hune
  rcases suffix_append_split hu with h2 | ⟨w, hw, hwne, he⟩
  · rcases List.suffix_cons_iff.mp h2 with heq | h3
    · rw [heq, List.cons_append]
      exact stopPub_false_nl_cons hb2 h2nl hpr
    · obtain ⟨u2, hu2⟩ := suffix_concat_ne_nil h3 hune
      rw [hu2]
      refine stopPub_false_append hb2 (fun c hc => h2nl c (h3.subset ?_))
      rw [hu2]
      exact hc
  · obtain ⟨w2, hw2⟩ := suffix_concat_ne_nil hw hwne
    rw [he, hw2]
    have hassoc : ((w2 ++ [e1]) ++ '\n' :: (l2x ++ [b2])) ++
        "\nPrivate Remarks: z".toList =
        (w2 ++ [e1]) ++
          ('\n' :: ((l2x ++ [b2]) ++ "\nPrivate Remarks: z".toList)) := by
      simp [List.append_assoc]
    rw [hassoc]
    refine stopPub_false_append he1 (fun c hc => h1nl c (hw.subset ?_))
    rw [hw2]
    exact hc

/-- Claim C7: on a block containing a `Public Remarks` label, a
two-line remark body, and a following `Private Remarks` label, the
Record's `Public Remarks` value is the whole body with its interior
newline preserved.  The body lines are arbitrary newline-free texts that
start and end in non-whitespace (what stripping leaves of any line),
whose first character is not a delimiter, and that do not themselves
open with the terminating label. -/
theorem c7_multiline_remarks (l1 l2 : List Char)
    (h1ne : l1 ≠ []) (h2ne : l2 ≠ [])
    (h1h : ∀ c, l1.head? = some c → pyWs c = false ∧ c ≠ ':')
    (h1l : ∀ c, l1.getLast? = some c → pyWs c = false)
    (h2l : ∀ c, l2.getLast? = some c → pyWs c = false)
    (h1nl : ∀ c ∈ l1, c ≠ '\n') (h2nl : ∀ c ∈ l2, c ≠ '\n')
    (hpr : ("Private Remarks:".toList).isPrefixOf l2 = false) :
    recGet (parseRecord (c7Block l1 l2)) "Public Remarks" = l1 ++ '\n' :: l2 := by
  obtain ⟨l2x, b2, rfl⟩ : ∃ x e, l2 = x ++ [e] :=
    ⟨l2.dropLast, l2.getLast h2ne, (List.dropLast_append_getLast h2ne).symm⟩
  obtain ⟨hd, tl, rfl⟩ := List.exists_cons_of_ne_nil h1ne
  have hb2 : pyWs b2 = false := h2l b2 (by simp)
  obtain ⟨hhd, hhdc⟩ : pyWs hd = false ∧ hd ≠ ':' := h1h hd (by simp)
  have hcne : (hd :: tl) ≠ [] := by simp
  have hL1 : (hd :: tl).dropLast ++ [(hd :: tl).getLast hcne] = hd :: tl :=
    List.dropLast_append_getLast hcne
  have he1 : pyWs ((hd :: tl).getLast hcne) = false :=
    h1l _ (List.getLast?_eq_getLast _ hcne)
  have hbody := lazyCap_body ((hd :: tl).dropLast) l2x ((hd :: tl).getLast hcne) b2
    he1 hb2 (by rw [hL1]; exact h1nl) h2nl hpr
  rw [hL1] at hbody
  have hW : ((hd :: tl) ++ '\n' :: (l2x ++ [b2])) ++ "\nPrivate Remarks: z".toList =
      (hd :: tl) ++ ('\n' :: ((l2x ++ [b2]) ++ "\nPrivate Remarks: z".toList)) := by
    simp [List.append_assoc]
  rw [hW] at hbody
  have hcol : colTab hd = false := by
    unfold colTab
    have hx1 : (hd == ':') = false := by
      rw [beq_eq_false_iff_ne]
      exact hhdc
    have hx2 : (hd == '\t') = false := by
      rw [beq_eq_false_iff_ne]
      intro hx
      rw [hx] at hhd
      cases hhd
    rw [hx1, hx2]
    rfl
  have htwcol : ((hd :: tl) ++
      ('\n' :: ((l2x ++ [b2]) ++ "\nPrivate Remarks: z".toList))).takeWhile colTab = [] := by
    rw [List.cons_append, List.takeWhile_cons_of_neg (by simp [hcol])]
  have htwws : ((hd :: tl) ++
      ('\n' :: ((l2x ++ [b2]) ++ "\nPrivate Remarks: z".toList))).takeWhile pyWs = [] := by
    rw [List.cons_append, List.takeWhile_cons_of_neg (by simp [hhd])]
  have hws : afterWsOpt (lazyCapUntil stopPub)
      ((hd :: tl) ++ ('\n' :: ((l2x ++ [b2]) ++ "\nPrivate Remarks: z".toList))) =
      some ((hd :: tl) ++ '\n' :: (l2x ++ [b2])) :=
    afterWsOpt_head htwws hbody
  have hdelim : afterDelim (afterWsOpt (lazyCapUntil stopPub))
      (':' :: ((hd :: tl) ++ ('\n' :: ((l2x ++ [b2]) ++ "\nPrivate Remarks: z".toList)))) =
      some ((hd :: tl) ++ '\n' :: (l2x ++ [b2])) :=
    afterDelim_single rfl htwcol hws
  have hpm : stdMatch "Public Remarks" (lazyCapUntil stopPub)
      ("Public Remarks:".toList ++
        ((hd :: tl) ++ ('\n' :: ((l2x ++ [b2]) ++ "\nPrivate Remarks: z".toList)))) =
      some ((hd :: tl) ++ '\n' :: (l2x ++ [b2])) := by
    unfold stdMatch litThen
    rw [if_pos (by rfl)]
    exact hdelim
  have hsearch : searchCap (stdMatch "Public Remarks" (lazyCapUntil stopPub))
      (c7Block (hd :: tl) (l2x ++ [b2])) =
      some ((hd :: tl) ++ '\n' :: (l2x ++ [b2])) := by
    have hBlock : c7Block (hd :: tl) (l2x ++ [b2]) =
        'M' :: 'L' :: 'S' :: '#' :: ' ' :: '1' :: '\n' ::
          ("Public Remarks:".toList ++
            ((hd :: tl) ++ ('\n' :: ((l2x ++ [b2]) ++ "\nPrivate Remarks: z".toList)))) := rfl
    rw [hBlock, searchCap_skip7 rfl rfl rfl rfl rfl rfl rfl]
    exact searchCap_cons_some hpm
  rw [recGet_publicRemarks, hsearch]
  show strip ((hd :: tl) ++ '\n' :: (l2x ++ [b2])) =
    (hd :: tl) ++ '\n' :: (l2x ++ [b2])
  have hshape : (hd :: tl) ++ '\n' :: (l2x ++ [b2]) =
      hd :: ((tl ++ '\n' :: l2x) ++ [b2]) := by
    simp [List.append_assoc]
  rw [hshape]
  exact strip_eq_self_concat hd _ b2 hhd hb2

/-- Witness for C7 at a concrete two-line remark body. -/
theorem c7_witness :
    recGet (parseRecord (c7Block ("Nice view".toList) ("Big lot.".toList)))
      "Public Remarks" = "Nice view\nBig lot.".toList := by
  have h := c7_multiline_remarks ("Nice view".toList) ("Big lot.".toList)
    (by decide) (by decide)
    (by intro c hc; injection hc with h0; subst h0; decide)
    (by intro c hc; injection hc with h0; subst h0; decide)
    (by intro c hc; injection hc with h0; subst h0; decide)
    (by decide) (by decide) (by decide)
  exact h

end RSP
